import Mathlib

/-!
Shallow embedding of the calculator core from `src/calc.cpp` (repository
`calc-trig`): the token recognizer `parse_op`, the numeric literal parser
`parse_arg`, and the evaluator (`nullary`, `unary`, `binary`, `process_line`).

Conventions of the embedding:
* an input line is a `List Char`; `lineGet l i` models `std::string::operator[]`,
  which yields the null character at the one-past-end position;
* the literal parser works in exact arithmetic (`ℚ`), mirroring the source's
  digit-by-digit accumulation; the evaluator works over `ℝ`, with the parsed
  argument cast in;
* `double` values produced by the evaluator are modelled by `Val`: either a
  finite real or IEEE positive infinity (the source returns `INFINITY` on two
  paths);
* every `std::cerr` diagnostic is modelled by a count of emitted messages, so
  "emits exactly one diagnostic" is statable.
-/

namespace CalcSpec

/-- `const std::size_t max_decimal_digits = 10`. -/
def max_decimal_digits : ℕ := 10

/-- `const double eps = 1e-10` (exact value of the literal). -/
noncomputable def eps : ℝ := 1 / 10 ^ 10

/-- `const double inf = 16331239353195370` — the finite sentinel. -/
noncomputable def inf : ℝ := 16331239353195370

/-- The `Op` enumeration of `calc.cpp`. -/
inductive Op where
  | ERR | SET | ADD | SUB | MUL | DIV | REM | NEG | POW | SQRT
  | SIN | COS | RAD | DEG | TAN | CTN | ASIN | ACOS | ATAN | ACTN
deriving DecidableEq, Repr

/-- `arity` from `calc.cpp`: 0 for ERR/RAD/DEG, 1 for the unary block,
2 for the binary block. -/
def arity : Op → ℕ
  | .ERR => 0
  | .RAD => 0
  | .DEG => 0
  | .SIN => 1
  | .COS => 1
  | .TAN => 1
  | .CTN => 1
  | .ASIN => 1
  | .ACOS => 1
  | .ATAN => 1
  | .ACTN => 1
  | .NEG => 1
  | .SQRT => 1
  | .SET => 2
  | .ADD => 2
  | .SUB => 2
  | .MUL => 2
  | .DIV => 2
  | .REM => 2
  | .POW => 2

/-- `line[i]` on a `std::string`: the character at `i`, or the null character
at (or past) the end. -/
def lineGet (l : List Char) (i : ℕ) : Char := l.getD i (Char.ofNat 0)

/-- Result of the recognizer: the operation, the final cursor, and the number
of diagnostics written to `cerr`. -/
structure OpResult where
  op : Op
  cursor : ℕ
  diag : ℕ
deriving DecidableEq, Repr

/-- `rollback(n)` inside `parse_op`, called when the cursor is at `i`:
rewinds the cursor by `n`, prints one "Unknown operation" diagnostic and
returns `Op::ERR`. -/
def rollback (i n : ℕ) : OpResult := ⟨Op.ERR, i - n, 1⟩

/-- `parse_op` from `calc.cpp`: the hand-built character trie.  The cursor
starts at 0 and each tested character advances it; a leading digit is put
back (`--i`) and resolves to `SET`. -/
def parse_op (l : List Char) : OpResult :=
  match lineGet l 0 with
  | '0' | '1' | '2' | '3' | '4' | '5' | '6' | '7' | '8' | '9' => ⟨Op.SET, 0, 0⟩
  | '+' => ⟨Op.ADD, 1, 0⟩
  | '-' => ⟨Op.SUB, 1, 0⟩
  | '*' => ⟨Op.MUL, 1, 0⟩
  | '/' => ⟨Op.DIV, 1, 0⟩
  | '%' => ⟨Op.REM, 1, 0⟩
  | '_' => ⟨Op.NEG, 1, 0⟩
  | '^' => ⟨Op.POW, 1, 0⟩
  | 'A' =>
    match lineGet l 1 with
    | 'C' =>
      match lineGet l 2 with
      | 'O' =>
        match lineGet l 3 with
        | 'S' => ⟨Op.ACOS, 4, 0⟩
        | _ => rollback 4 4
      | 'T' =>
        match lineGet l 3 with
        | 'N' => ⟨Op.ACTN, 4, 0⟩
        | _ => rollback 4 4
      | _ => rollback 3 3
    | 'S' =>
      match lineGet l 2 with
      | 'I' =>
        match lineGet l 3 with
        | 'N' => ⟨Op.ASIN, 4, 0⟩
        | _ => rollback 4 4
      | _ => rollback 3 3
    | 'T' =>
      match lineGet l 2 with
      | 'A' =>
        match lineGet l 3 with
        | 'N' => ⟨Op.ATAN, 4, 0⟩
        | _ => rollback 4 4
      | _ => rollback 3 3
    | _ => rollback 2 2
  | 'S' =>
    match lineGet l 1 with
    | 'Q' =>
      match lineGet l 2 with
      | 'R' =>
        match lineGet l 3 with
        | 'T' => ⟨Op.SQRT, 4, 0⟩
        | _ => rollback 4 4
      | _ => rollback 3 3
    | 'I' =>
      match lineGet l 2 with
      | 'N' => ⟨Op.SIN, 3, 0⟩
      | _ => rollback 3 3
    | _ => rollback 2 2
  | 'C' =>
    match lineGet l 1 with
    | 'O' =>
      match lineGet l 2 with
      | 'S' => ⟨Op.COS, 3, 0⟩
      | _ => rollback 3 3
    | 'T' =>
      match lineGet l 2 with
      | 'N' => ⟨Op.CTN, 3, 0⟩
      | _ => rollback 3 3
    | _ => rollback 2 2
  | 'R' =>
    match lineGet l 1 with
    | 'A' =>
      match lineGet l 2 with
      | 'D' => ⟨Op.RAD, 3, 0⟩
      | _ => rollback 3 3
    | _ => rollback 2 2
  | 'D' =>
    match lineGet l 1 with
    | 'E' =>
      match lineGet l 2 with
      | 'G' => ⟨Op.DEG, 3, 0⟩
      | _ => rollback 3 3
    | _ => rollback 2 2
  | 'T' =>
    match lineGet l 1 with
    | 'A' =>
      match lineGet l 2 with
      | 'N' => ⟨Op.TAN, 3, 0⟩
      | _ => rollback 3 3
    | _ => rollback 2 2
  | _ => rollback 1 1

/-- `std::isspace` (C locale) on the characters a line can contain. -/
def is_space (c : Char) : Bool :=
  c = ' ' || c = Char.ofNat 9 || c = Char.ofNat 10 || c = Char.ofNat 11 ||
  c = Char.ofNat 12 || c = Char.ofNat 13

/-- `skip_ws` from `calc.cpp`. -/
def skip_ws (l : List Char) (i : ℕ) : ℕ :=
  if h : i < l.length then
    if is_space (lineGet l i) then skip_ws l (i + 1) else i
  else i
termination_by l.length - i
decreasing_by omega

/-- `line[i] - '0'` for a digit character, as a rational. -/
def digit_val (c : Char) : ℚ := (c.toNat - 48 : ℕ)

/-- The scanning loop of `parse_arg`, expressed on the unread suffix of the
line; returns the accumulated value and the number of characters consumed.
State: `res`/`count`/`integer`/`fraction` exactly as in the source; the loop
runs while characters remain and `count < max_decimal_digits`, consuming
digits (integer part `×10 + d`, fractional part `d × (fraction/10)` after
`fraction /= 10`) and consuming `'.'` (which clears `integer`), and stopping
(`good = false`) at any other character. -/
def parse_arg_loop : List Char → ℚ → ℕ → Bool → ℚ → ℚ × ℕ
  | [], res, _, _, _ => (res, 0)
  | c :: cs, res, count, integer, fraction =>
    if count < max_decimal_digits then
      if c.isDigit then
        if integer then
          ((parse_arg_loop cs (res * 10 + digit_val c) (count + 1) integer fraction).1,
           (parse_arg_loop cs (res * 10 + digit_val c) (count + 1) integer fraction).2 + 1)
        else
          ((parse_arg_loop cs (res + digit_val c * (fraction / 10)) (count + 1) integer
              (fraction / 10)).1,
           (parse_arg_loop cs (res + digit_val c * (fraction / 10)) (count + 1) integer
              (fraction / 10)).2 + 1)
      else if c = '.' then
        ((parse_arg_loop cs res count false fraction).1,
         (parse_arg_loop cs res count false fraction).2 + 1)
      else (res, 0)
    else (res, 0)

/-- Result of `parse_arg`: the value, the final cursor, and the number of
diagnostics (one "suffix left" message iff the cursor stops before the end
of the line). -/
structure ArgResult where
  val : ℚ
  cursor : ℕ
  diag : ℕ
deriving DecidableEq, Repr

/-- `parse_arg` from `calc.cpp`, starting at cursor `i`. -/
def parse_arg (l : List Char) (i : ℕ) : ArgResult :=
  let p := parse_arg_loop (l.drop i) 0 0 true 1
  ⟨p.1, i + p.2, if i + p.2 < l.length then 1 else 0⟩

/-- Number of decimal-digit characters in a list — the quantity `parse_arg`
charges against its `max_decimal_digits` budget. -/
def digit_count (l : List Char) : ℕ := (l.filter (fun c => c.isDigit)).length

/-- State transformer describing one pass of the `parse_arg` loop over a run
of benign (digit or `'.'`) characters: it performs the same updates as
`parse_arg_loop` but never stops.  Used to relate the loop on `a ++ b` to the
loop on `b`. -/
def scan_chars : List Char → ℚ → ℕ → Bool → ℚ → ℚ × ℕ × Bool × ℚ
  | [], res, count, integer, fraction => (res, count, integer, fraction)
  | c :: cs, res, count, integer, fraction =>
    if c.isDigit then
      if integer then scan_chars cs (res * 10 + digit_val c) (count + 1) integer fraction
      else scan_chars cs (res + digit_val c * (fraction / 10)) (count + 1) integer (fraction / 10)
    else if c = '.' then scan_chars cs res count false fraction
    else (res, count, integer, fraction)

/-- A `double` produced by the evaluator: a finite real, or IEEE positive
infinity (`INFINITY` in the source). -/
inductive Val where
  | fin : ℝ → Val
  | posInf : Val

/-- `ctn` from `calc.cpp`: `1 / tan(current)`. -/
noncomputable def ctn (current : ℝ) : ℝ := 1 / Real.tan current

/-- `actn` from `calc.cpp`: `atan(1/current)`, shifted by `π` when negative. -/
noncomputable def actn (current : ℝ) : ℝ :=
  let angle := Real.arctan (1 / current)
  if angle < 0 then angle + Real.pi else angle

/-- `to_radians` from `calc.cpp`. -/
noncomputable def to_radians (angle : ℝ) (rad_on : Bool) : ℝ :=
  if rad_on then angle else angle / 180 * Real.pi

/-- `to_degrees` from `calc.cpp`. -/
noncomputable def to_degrees (angle : ℝ) (rad_on : Bool) : ℝ :=
  if rad_on then angle else angle * 180 / Real.pi

/-- `nullary` from `calc.cpp`: returns the (unchanged) current value and the
new angle mode.  No diagnostics are emitted on this path. -/
def nullary (current : ℝ) (op : Op) (rad_on : Bool) : ℝ × Bool :=
  match op with
  | .ERR => (current, rad_on)
  | .RAD => (current, true)
  | .DEG => (current, false)
  | _ => (current, rad_on)

/-- The nearest integer to `q`, ties going to the even integer — the rounding
used by IEEE 754 / `std::remainder`. -/
noncomputable def round_ties_even (q : ℝ) : ℤ :=
  if Int.fract q = 1 / 2 then (if Even ⌊q⌋ then ⌊q⌋ else ⌊q⌋ + 1) else round q

/-- `std::remainder(x, y)`: `x - y·n` with `n` the integer nearest `x/y`,
ties to even. -/
noncomputable def ieee_remainder (x y : ℝ) : ℝ := x - y * (round_ties_even (x / y) : ℝ)

/-- `unary` from `calc.cpp`: the new value together with the number of
diagnostics emitted. -/
noncomputable def unary (current : ℝ) (op : Op) (rad_on : Bool) : Val × ℕ :=
  match op with
  | .NEG => (.fin (-current), 0)
  | .SQRT =>
    if 0 < current then (.fin (Real.sqrt current), 0) else (.fin current, 1)
  | .SIN => (.fin (Real.sin (to_radians current rad_on)), 0)
  | .COS => (.fin (Real.cos (to_radians current rad_on)), 0)
  | .TAN =>
    if eps < |Real.cos (to_radians current rad_on)| then
      (.fin (Real.tan (to_radians current rad_on)), 0)
    else (.fin inf, 0)
  | .CTN =>
    if eps < |Real.sin (to_radians current rad_on)| then
      (.fin (ctn (to_radians current rad_on)), 0)
    else (.posInf, 0)
  | .ASIN =>
    if |current| ≤ 1 then (.fin (to_degrees (Real.arcsin current) rad_on), 0)
    else (.posInf, 1)
  | .ACOS =>
    if |current| ≤ 1 then (.fin (to_degrees (Real.arccos current) rad_on), 0)
    else (.fin current, 1)
  | .ATAN =>
    if |current| < Real.pi / 2 then (.fin (to_degrees (Real.arctan current) rad_on), 0)
    else (.fin current, 1)
  | .ACTN =>
    if 0 < |current| ∧ |current| < Real.pi then (.fin (to_degrees (actn current) rad_on), 0)
    else (.fin current, 1)
  | _ => (.fin current, 0)

/-- `binary` from `calc.cpp`: the new value together with the number of
diagnostics emitted. -/
noncomputable def binary (op : Op) (left right : ℝ) : ℝ × ℕ :=
  match op with
  | .SET => (right, 0)
  | .ADD => (left + right, 0)
  | .SUB => (left - right, 0)
  | .MUL => (left * right, 0)
  | .DIV => if right ≠ 0 then (left / right, 0) else (left, 1)
  | .REM => if right ≠ 0 then (ieee_remainder left right, 0) else (left, 1)
  | .POW => (Real.rpow left right, 0)
  | _ => (left, 0)

/-- `process_line` from `calc.cpp`: recognize the operation, dispatch on its
arity (for arity 2, skip whitespace and parse the literal argument), and
return the new value, the new angle mode, and the total number of
diagnostics emitted while handling the line. -/
noncomputable def process_line (current : ℝ) (rad_on : Bool) (l : List Char) :
    Val × Bool × ℕ :=
  let r := parse_op l
  match arity r.op with
  | 0 =>
    let p := nullary current r.op rad_on
    (Val.fin p.1, p.2, r.diag)
  | 1 =>
    let p := unary current r.op rad_on
    (p.1, rad_on, r.diag + p.2)
  | 2 =>
    let j := skip_ws l r.cursor
    let a := parse_arg l j
    let p := binary r.op current ((a.val : ℝ))
    (Val.fin p.1, rad_on, r.diag + a.diag + p.2)
  | _ + 3 => (Val.fin current, rad_on, r.diag)

/-- The angle-mode transition a processed line induces: the mode component of
`process_line` (the accumulator passed in is irrelevant to it, see
`mode_of_process_line`). -/
noncomputable def mode_step (m : Bool) (l : List Char) : Bool :=
  (process_line 0 m l).2.1

/-- Helper: the two branches of an `if` may be swapped when the condition is
negated from `<` to `≤`. -/
theorem ite_lt_swap {α : Type} (x e : ℝ) (a b : α) :
    (if e < x then a else b) = if x ≤ e then b else a := by
  rcases le_or_lt x e with h | h
  · rw [if_neg (not_lt.mpr h), if_pos h]
  · rw [if_pos h, if_neg (not_le.mpr h)]

/-- Claim C3: for every current value and angle mode, `TAN` returns the fixed
finite sentinel `inf = 16331239353195370` (not IEEE infinity) when
`|cos(radians)| ≤ eps` and `tan(radians)` otherwise, with no diagnostic;
`CTN`, under the symmetric guard `|sin(radians)| ≤ eps`, instead returns IEEE
positive infinity. -/
theorem tan_ctn_pole_sentinels (c : ℝ) (m : Bool) :
    unary c Op.TAN m =
      (if |Real.cos (to_radians c m)| ≤ eps then (Val.fin inf, 0)
        else (Val.fin (Real.tan (to_radians c m)), 0)) ∧
    unary c Op.CTN m =
      (if |Real.sin (to_radians c m)| ≤ eps then (Val.posInf, 0)
        else (Val.fin (ctn (to_radians c m)), 0)) ∧
    (∀ x : ℝ, Val.fin x ≠ Val.posInf) ∧
    inf = 16331239353195370 := by
  refine ⟨?_, ?_, fun x h => Val.noConfusion h, rfl⟩
  · show (if eps < |Real.cos (to_radians c m)| then
        ((Val.fin (Real.tan (to_radians c m)), 0) : Val × ℕ) else (Val.fin inf, 0)) = _
    exact ite_lt_swap _ _ _ _
  · show (if eps < |Real.sin (to_radians c m)| then
        ((Val.fin (ctn (to_radians c m)), 0) : Val × ℕ) else (Val.posInf, 0)) = _
    exact ite_lt_swap _ _ _ _

/-- Claim C4: square-root of a non-positive current (zero included) emits a
diagnostic and passes the current value through; division and remainder with
a zero right operand emit a diagnostic and pass the left operand through;
with a nonzero right operand remainder follows IEEE `std::remainder`
semantics (round-to-nearest-even quotient), which is not truncating modulo:
`remainder(7, 4) = -1` (truncating modulo would give `3`). -/
theorem domain_guards_sqrt_div_rem (c l r : ℝ) (m : Bool) :
    unary c Op.SQRT m =
      (if 0 < c then (Val.fin (Real.sqrt c), 0) else (Val.fin c, 1)) ∧
    unary (0 : ℝ) Op.SQRT m = (Val.fin 0, 1) ∧
    binary Op.DIV l r = (if r = 0 then (l, 1) else (l / r, 0)) ∧
    binary Op.REM l r = (if r = 0 then (l, 1) else (ieee_remainder l r, 0)) ∧
    ieee_remainder 7 4 = -1 := by
  have hfloor : ⌊(7 : ℝ) / 4⌋ = 1 := by
    rw [Int.floor_eq_iff] <;> norm_num
  have hfract : Int.fract ((7 : ℝ) / 4) = 3 / 4 := by
    rw [Int.fract, hfloor]; norm_num
  have hround : round ((7 : ℝ) / 4) = 2 := by
    rw [round_eq, show (7 : ℝ) / 4 + 1 / 2 = 9 / 4 by norm_num,
      Int.floor_eq_iff] <;> norm_num
  refine ⟨rfl, ?_, ?_, ?_, ?_⟩
  · show (if (0 : ℝ) < 0 then ((Val.fin (Real.sqrt 0), 0) : Val × ℕ)
      else (Val.fin 0, 1)) = _
    norm_num
  · show (if r ≠ 0 then ((l / r, 0) : ℝ × ℕ) else (l, 1)) = _
    rcases eq_or_ne r 0 with h | h <;> simp [h]
  · show (if r ≠ 0 then ((ieee_remainder l r, 0) : ℝ × ℕ) else (l, 1)) = _
    rcases eq_or_ne r 0 with h | h <;> simp [h]
  · rw [ieee_remainder, round_ties_even, hfract, if_neg (by norm_num), hround]
    norm_num

/-- Claim C5: arcsine and arccosine are computed only for `|current| ≤ 1`,
with the result converted back to the active angle unit; on domain failure
both emit one diagnostic, but arcsine falls back to IEEE positive infinity
while arccosine passes the current value through (asymmetric fallbacks). -/
theorem asin_acos_domain (c : ℝ) (m : Bool) :
    unary c Op.ASIN m =
      (if |c| ≤ 1 then (Val.fin (to_degrees (Real.arcsin c) m), 0)
        else (Val.posInf, 1)) ∧
    unary c Op.ACOS m =
      (if |c| ≤ 1 then (Val.fin (to_degrees (Real.arccos c) m), 0)
        else (Val.fin c, 1)) ∧
    (∀ x : ℝ, Val.posInf ≠ Val.fin x) :=
  ⟨rfl, rfl, fun x h => Val.noConfusion h⟩

/-- Claim C6: arctangent is computed (and converted back to the active angle
unit) only when `|current| < π/2`; otherwise one diagnostic is emitted and
the current value is passed through unchanged. -/
theorem atan_domain (c : ℝ) (m : Bool) :
    unary c Op.ATAN m =
      if |c| < Real.pi / 2 then (Val.fin (to_degrees (Real.arctan c) m), 0)
      else (Val.fin c, 1) :=
  rfl

theorem digit_count_nil : digit_count [] = 0 := rfl

theorem digit_count_cons (c : Char) (l : List Char) :
    digit_count (c :: l) = digit_count l + (if c.isDigit then 1 else 0) := by
  simp only [digit_count, List.filter_cons]
  split <;> simp [Nat.add_comm]

/-- The scanning loop never charges more than `max_decimal_digits` digits:
starting from a count within budget, the digits among the consumed characters
plus the starting count stay within the budget. -/
theorem parse_arg_loop_budget :
    ∀ (rest : List Char) (res : ℚ) (count : ℕ) (integer : Bool) (fraction : ℚ),
      count ≤ max_decimal_digits →
      digit_count (List.take (parse_arg_loop rest res count integer fraction).2 rest) + count
        ≤ max_decimal_digits := by
  intro rest
  induction rest with
  | nil =>
    intro res count integer fraction h
    simpa [parse_arg_loop, digit_count] using h
  | cons c cs ih =>
    intro res count integer fraction h
    simp only [parse_arg_loop]
    split_ifs with h1 h2 h3 h4
    · rw [List.take_succ_cons, digit_count_cons, if_pos h2]
      have := ih (res * 10 + digit_val c) (count + 1) integer fraction (by omega)
      omega
    · rw [List.take_succ_cons, digit_count_cons, if_pos h2]
      have := ih (res + digit_val c * (fraction / 10)) (count + 1) integer (fraction / 10)
        (by omega)
      omega
    · rw [List.take_succ_cons, digit_count_cons, if_neg h2]
      have := ih res count false fraction (by omega)
      omega
    · simpa [digit_count] using h
    · simpa [digit_count] using h

/-- Truncating the line at the point where the scanning loop stopped does not
change the loop's result: the unconsumed suffix never influences the value. -/
theorem parse_arg_loop_take :
    ∀ (rest : List Char) (res : ℚ) (count : ℕ) (integer : Bool) (fraction : ℚ),
      parse_arg_loop (List.take (parse_arg_loop rest res count integer fraction).2 rest)
          res count integer fraction
        = parse_arg_loop rest res count integer fraction := by
  intro rest
  induction rest with
  | nil => intro res count integer fraction; simp [parse_arg_loop]
  | cons c cs ih =>
    intro res count integer fraction
    by_cases h1 : count < max_decimal_digits
    · by_cases h2 : c.isDigit
      · by_cases h3 : integer = true
        · simp only [parse_arg_loop, if_pos h1, if_pos h2, if_pos h3, List.take_succ_cons]
          rw [ih]
        · simp only [parse_arg_loop, if_pos h1, if_pos h2, if_neg h3, List.take_succ_cons]
          rw [ih]
      · by_cases h4 : c = '.'
        · simp only [parse_arg_loop, if_pos h1, if_neg h2, if_pos h4, List.take_succ_cons]
          rw [ih]
        · simp only [parse_arg_loop, if_pos h1, if_neg h2, if_neg h4, List.take_zero]
    · simp only [parse_arg_loop, if_neg h1, List.take_zero]

/-- Claim C9: `parse_arg` consumes at most 10 digit characters (dots are not
charged against the budget); the result is unchanged when the line is
truncated at the final cursor, so the unconsumed suffix never affects the
accumulated value, and the suffix diagnostic is emitted exactly when the
cursor stops before the end of the line (the truncated line emits none). -/
theorem literal_budget_and_suffix (l : List Char) (i : ℕ) :
    digit_count (List.take ((parse_arg l i).cursor - i) (l.drop i)) ≤ max_decimal_digits ∧
    parse_arg (List.take (parse_arg l i).cursor l) i
      = ⟨(parse_arg l i).val, (parse_arg l i).cursor, 0⟩ ∧
    (parse_arg l i).diag = if (parse_arg l i).cursor < l.length then 1 else 0 := by
  refine ⟨?_, ?_, rfl⟩
  · have h := parse_arg_loop_budget (l.drop i) 0 0 true 1 (by norm_num [max_decimal_digits])
    simpa [parse_arg] using h
  · have hdt : List.drop i
        (List.take (i + (parse_arg_loop (List.drop i l) 0 0 true 1).2) l)
        = List.take ((parse_arg_loop (List.drop i l) 0 0 true 1).2) (List.drop i l) := by
      rw [List.drop_take]
      congr 1
      omega
    simp only [parse_arg]
    simp only [hdt, parse_arg_loop_take]
    have hlen : ¬ (i + (parse_arg_loop (List.drop i l) 0 0 true 1).2 <
        (List.take (i + (parse_arg_loop (List.drop i l) 0 0 true 1).2) l).length) := by
      rw [List.length_take]
      omega
    simp [ArgResult.mk.injEq, hlen]

/-- Scanning a run of digit-or-dot characters whose digits fit strictly
within the budget consumes the whole run and continues on the rest of the
line in the state computed by `scan_chars`. -/
theorem parse_arg_loop_append :
    ∀ (a b : List Char) (res : ℚ) (count : ℕ) (integer : Bool) (fraction : ℚ),
      (∀ c ∈ a, c.isDigit = true ∨ c = '.') →
      count + digit_count a < max_decimal_digits →
      parse_arg_loop (a ++ b) res count integer fraction
        = ((parse_arg_loop b (scan_chars a res count integer fraction).1
              (scan_chars a res count integer fraction).2.1
              (scan_chars a res count integer fraction).2.2.1
              (scan_chars a res count integer fraction).2.2.2).1,
           (parse_arg_loop b (scan_chars a res count integer fraction).1
              (scan_chars a res count integer fraction).2.1
              (scan_chars a res count integer fraction).2.2.1
              (scan_chars a res count integer fraction).2.2.2).2 + a.length) := by
  intro a
  induction a with
  | nil => intro b res count integer fraction _ _; simp [scan_chars]
  | cons c cs ih =>
    intro b res count integer fraction hben hcnt
    have hcs : ∀ x ∈ cs, x.isDigit = true ∨ x = '.' :=
      fun x hx => hben x (List.mem_cons_of_mem c hx)
    rcases hben c (List.mem_cons_self c cs) with hd | hd
    · rw [digit_count_cons, if_pos hd] at hcnt
      have h1 : count < max_decimal_digits := by omega
      by_cases h3 : integer = true
      · simp only [List.cons_append, parse_arg_loop, scan_chars, List.append_eq, if_pos h1, if_pos hd,
          if_pos h3]
        rw [ih b _ _ _ _ hcs (by omega)]
        simp [Nat.add_assoc]
      · simp only [List.cons_append, parse_arg_loop, scan_chars, List.append_eq, if_pos h1, if_pos hd,
          if_neg h3]
        rw [ih b _ _ _ _ hcs (by omega)]
        simp [Nat.add_assoc]
    · subst hd
      rw [digit_count_cons, if_neg (by decide)] at hcnt
      have h1 : count < max_decimal_digits := by omega
      simp only [List.cons_append, parse_arg_loop, scan_chars, List.append_eq, if_pos h1,
        if_neg (show ¬ (('.').isDigit = true) by decide), if_pos rfl]
      rw [ih b _ _ _ _ hcs (by omega)]
      simp [Nat.add_assoc]

/-- The count field after scanning a benign run grows by exactly the number
of digits in the run. -/
theorem scan_chars_count :
    ∀ (a : List Char) (res : ℚ) (count : ℕ) (integer : Bool) (fraction : ℚ),
      (∀ c ∈ a, c.isDigit = true ∨ c = '.') →
      (scan_chars a res count integer fraction).2.1 = count + digit_count a := by
  intro a
  induction a with
  | nil => intro res count integer fraction _; simp [scan_chars, digit_count]
  | cons c cs ih =>
    intro res count integer fraction hben
    have hcs : ∀ x ∈ cs, x.isDigit = true ∨ x = '.' :=
      fun x hx => hben x (List.mem_cons_of_mem c hx)
    rcases hben c (List.mem_cons_self c cs) with hd | hd
    · rw [digit_count_cons, if_pos hd]
      by_cases h3 : integer = true
      · simp only [scan_chars, if_pos hd, if_pos h3]
        rw [ih _ _ _ _ hcs]
        omega
      · simp only [scan_chars, if_pos hd, if_neg h3]
        rw [ih _ _ _ _ hcs]
        omega
    · subst hd
      rw [digit_count_cons, if_neg (by decide)]
      rw [show ∀ r f, scan_chars ('.' :: cs) r count integer f = scan_chars cs r count false f
        from fun r f => by rw [scan_chars, if_neg (by decide), if_pos rfl]]
      rw [ih _ _ _ _ hcs]
      omega

/-- Once the integer flag has been cleared it stays cleared. -/
theorem scan_chars_integer_persist :
    ∀ (a : List Char) (res : ℚ) (count : ℕ) (fraction : ℚ),
      (scan_chars a res count false fraction).2.2.1 = false := by
  intro a
  induction a with
  | nil => intro res count fraction; simp [scan_chars]
  | cons c cs ih =>
    intro res count fraction
    by_cases hd : c.isDigit
    · simp only [scan_chars, if_pos hd, if_neg (show ¬ (false = true) by decide)]
      exact ih _ _ _
    · by_cases he : c = '.'
      · simp only [scan_chars, if_neg hd, if_pos he]
        exact ih _ _ _
      · simp only [scan_chars, if_neg hd, if_neg he]

/-- A benign run containing a dot leaves the integer flag cleared. -/
theorem scan_chars_integer_false :
    ∀ (a : List Char) (res : ℚ) (count : ℕ) (integer : Bool) (fraction : ℚ),
      (∀ c ∈ a, c.isDigit = true ∨ c = '.') → '.' ∈ a →
      (scan_chars a res count integer fraction).2.2.1 = false := by
  intro a
  induction a with
  | nil => intro res count integer fraction _ h; cases h
  | cons c cs ih =>
    intro res count integer fraction hben hdot
    have hcs : ∀ x ∈ cs, x.isDigit = true ∨ x = '.' :=
      fun x hx => hben x (List.mem_cons_of_mem c hx)
    by_cases he : c = '.'
    · subst he
      simp only [scan_chars, if_neg (show ¬ (('.').isDigit = true) by decide), if_pos rfl]
      exact scan_chars_integer_persist _ _ _ _
    · have hd : c.isDigit = true := by
        rcases hben c (List.mem_cons_self c cs) with h | h
        · exact h
        · exact absurd h he
      have hdot' : '.' ∈ cs := by
        rcases List.mem_cons.mp hdot with h | h
        · exact absurd h.symm he
        · exact h
      by_cases h3 : integer = true
      · simp only [scan_chars, if_pos hd, if_pos h3]
        exact ih _ _ _ _ hcs hdot'
      · simp only [scan_chars, if_pos hd, if_neg h3]
        exact ih _ _ _ _ hcs hdot'

/-- Counterexample to claim C1 as stated: on the line `1.2.3` the parser does
not stop at the second dot — it returns value `1.23` with cursor 5, while
the line truncated just before the second dot (`1.2`) yields value `1.2`
with cursor 3. -/
theorem second_dot_counterexample :
    ¬ ((parse_arg ['1', '.', '2', '.', '3'] 0).val = (parse_arg ['1', '.', '2'] 0).val ∧
       (parse_arg ['1', '.', '2', '.', '3'] 0).cursor
         = (parse_arg ['1', '.', '2'] 0).cursor) := by
  have hv1 : (parse_arg ['1', '.', '2', '.', '3'] 0).val = 123 / 100 := by
    simp +decide [parse_arg, parse_arg_loop, digit_val, max_decimal_digits]
    norm_num
  have hv2 : (parse_arg ['1', '.', '2'] 0).val = 6 / 5 := by
    simp +decide [parse_arg, parse_arg_loop, digit_val, max_decimal_digits]
    norm_num
  rw [hv1, hv2]
  norm_num

/-- Claim C1 as amended: when `parse_arg` encounters a second `'.'` while
scanning a literal (a benign digit-or-dot prefix `a` that already contains a
dot, with digit budget remaining), the dot is consumed and parsing
continues: the returned value and diagnostic equal those obtained from the
same line with that second `'.'` deleted, and the final cursor is one
position further. -/
theorem second_dot_consumed (pre a b : List Char)
    (hben : ∀ c ∈ a, c.isDigit = true ∨ c = '.')
    (hdot : '.' ∈ a) (hcnt : digit_count a < max_decimal_digits) :
    (parse_arg (pre ++ (a ++ '.' :: b)) pre.length).val
        = (parse_arg (pre ++ (a ++ b)) pre.length).val ∧
    (parse_arg (pre ++ (a ++ '.' :: b)) pre.length).cursor
        = (parse_arg (pre ++ (a ++ b)) pre.length).cursor + 1 ∧
    (parse_arg (pre ++ (a ++ '.' :: b)) pre.length).diag
        = (parse_arg (pre ++ (a ++ b)) pre.length).diag := by
  have hL := parse_arg_loop_append a ('.' :: b) 0 0 true 1 hben (by omega)
  have hR := parse_arg_loop_append a b 0 0 true 1 hben (by omega)
  have hint : (scan_chars a 0 0 true 1).2.2.1 = false :=
    scan_chars_integer_false a 0 0 true 1 hben hdot
  have hcountS : (scan_chars a 0 0 true 1).2.1 = digit_count a := by
    simpa using scan_chars_count a 0 0 true 1 hben
  rw [hint] at hL hR
  have hstep : parse_arg_loop ('.' :: b) (scan_chars a 0 0 true 1).1
        (scan_chars a 0 0 true 1).2.1 false (scan_chars a 0 0 true 1).2.2.2
      = ((parse_arg_loop b (scan_chars a 0 0 true 1).1 (scan_chars a 0 0 true 1).2.1 false
            (scan_chars a 0 0 true 1).2.2.2).1,
         (parse_arg_loop b (scan_chars a 0 0 true 1).1 (scan_chars a 0 0 true 1).2.1 false
            (scan_chars a 0 0 true 1).2.2.2).2 + 1) := by
    have hlt : (scan_chars a 0 0 true 1).2.1 < max_decimal_digits := by omega
    simp only [parse_arg_loop]
    rw [if_pos hlt, if_neg (show ¬ (('.').isDigit = true) by decide)]
    simp
  have hfinal : parse_arg_loop (a ++ '.' :: b) 0 0 true 1
      = ((parse_arg_loop b (scan_chars a 0 0 true 1).1 (scan_chars a 0 0 true 1).2.1 false
            (scan_chars a 0 0 true 1).2.2.2).1,
         (parse_arg_loop b (scan_chars a 0 0 true 1).1 (scan_chars a 0 0 true 1).2.1 false
            (scan_chars a 0 0 true 1).2.2.2).2 + 1 + a.length) := by
    rw [hL, hstep]
  simp only [parse_arg, List.drop_left, hfinal, hR]
  refine ⟨?_, ?_, ?_⟩
  · trivial
  · omega
  · simp only [List.length_append, List.length_cons]
    split_ifs with h1 h2 <;> first | rfl | omega

/-- Witness for `second_dot_consumed`: on the line `1.2.3` (prefix `1.2`
already holds a dot) the parser yields the same value `1.23` and diagnostic
as on `1.23`, with the cursor one further. -/
theorem second_dot_consumed_witness :
    (parse_arg ['1', '.', '2', '.', '3'] 0).val = (parse_arg ['1', '.', '2', '3'] 0).val ∧
    (parse_arg ['1', '.', '2', '.', '3'] 0).cursor
      = (parse_arg ['1', '.', '2', '3'] 0).cursor + 1 ∧
    (parse_arg ['1', '.', '2', '.', '3'] 0).diag = (parse_arg ['1', '.', '2', '3'] 0).diag :=
  second_dot_consumed [] ['1', '.', '2'] ['3'] (by decide) (by decide) (by decide)

theorem lineGet_take (l : List Char) (j n : ℕ) (h : j < n) :
    lineGet (List.take n l) j = lineGet l j := by
  simp [lineGet, List.getD_eq_getElem?_getD, List.getElem?_take, h]

set_option maxHeartbeats 1000000 in
/-- Every run of the recognizer either fails (returning the error tag with
the cursor rewound to 0 and exactly one diagnostic) or succeeds with a
non-error tag and no diagnostic. -/
theorem parse_op_cases (l : List Char) :
    parse_op l = ⟨Op.ERR, 0, 1⟩ ∨
      ∃ op k, op ≠ Op.ERR ∧ parse_op l = ⟨op, k, 0⟩ := by
  unfold parse_op
  repeat' split
  all_goals first | (left; rfl) | (right; refine ⟨_, _, ?_, rfl⟩; decide)

theorem parse_op_err (l : List Char) (h : (parse_op l).op = Op.ERR) :
    parse_op l = ⟨Op.ERR, 0, 1⟩ := by
  rcases parse_op_cases l with he | ⟨op, k, hne, heq⟩
  · exact he
  · rw [heq] at h
    exact absurd h hne

set_option maxHeartbeats 2000000 in
/-- A successful (non-`SET`) recognition depends only on the consumed prefix:
truncating the line at the final cursor leaves the result unchanged. -/
theorem parse_op_take :
    ∀ (l : List Char) (op : Op) (k : ℕ), parse_op l = ⟨op, k, 0⟩ → op ≠ Op.SET →
      parse_op (List.take k l) = ⟨op, k, 0⟩ := by
  intro l op k h hSET
  unfold parse_op at h
  repeat' split at h
  all_goals first
    | (injection h with h1 h2 h3; subst h1 h2; exact absurd rfl hSET)
    | (injection h with h1 h2 h3; subst h1 h2;
       simp_all +decide [parse_op, lineGet_take])

theorem digit_char_cases (ch : Char) (h : ch.isDigit = true) :
    ch = '0' ∨ ch = '1' ∨ ch = '2' ∨ ch = '3' ∨ ch = '4' ∨ ch = '5' ∨ ch = '6' ∨
    ch = '7' ∨ ch = '8' ∨ ch = '9' := by
  simp [Char.isDigit] at h
  obtain ⟨h1, h2⟩ := h
  have h1' : 48 ≤ ch.toNat := h1
  have h2' : ch.toNat ≤ 57 := h2
  have hinj : ∀ (d : Char), ch.toNat = d.toNat → ch = d := fun d hd =>
    Char.ext (UInt32.ext hd)
  have hrange : ch.toNat = 48 ∨ ch.toNat = 49 ∨ ch.toNat = 50 ∨ ch.toNat = 51 ∨
      ch.toNat = 52 ∨ ch.toNat = 53 ∨ ch.toNat = 54 ∨ ch.toNat = 55 ∨
      ch.toNat = 56 ∨ ch.toNat = 57 := by omega
  rcases hrange with hx | hx | hx | hx | hx | hx | hx | hx | hx | hx
  · exact Or.inl (hinj '0' hx)
  · exact Or.inr (Or.inl (hinj '1' hx))
  · exact Or.inr (Or.inr (Or.inl (hinj '2' hx)))
  · exact Or.inr (Or.inr (Or.inr (Or.inl (hinj '3' hx))))
  · exact Or.inr (Or.inr (Or.inr (Or.inr (Or.inl (hinj '4' hx)))))
  · exact Or.inr (Or.inr (Or.inr (Or.inr (Or.inr (Or.inl (hinj '5' hx))))))
  · exact Or.inr (Or.inr (Or.inr (Or.inr (Or.inr (Or.inr (Or.inl (hinj '6' hx)))))))
  · exact Or.inr (Or.inr (Or.inr (Or.inr (Or.inr (Or.inr (Or.inr (Or.inl (hinj '7' hx))))))))
  · exact Or.inr (Or.inr (Or.inr (Or.inr (Or.inr (Or.inr (Or.inr (Or.inr
      (Or.inl (hinj '8' hx)))))))))
  · exact Or.inr (Or.inr (Or.inr (Or.inr (Or.inr (Or.inr (Or.inr (Or.inr
      (Or.inr (hinj '9' hx)))))))))

theorem is_space_of_digit (ch : Char) (h : ch.isDigit = true) : is_space ch = false := by
  cases hs : is_space ch
  · rfl
  · simp [is_space] at hs
    rcases hs with ((((rfl | rfl) | rfl) | rfl) | rfl) | rfl <;> exact absurd h (by decide)

/-- Claim C2: a line whose leading token is not recognized (the recognizer
returns the error tag) produces exactly one diagnostic, and `process_line`
returns with the accumulator and the angle mode unchanged; the error tag is
evaluated as an arity-0 no-op. -/
theorem unknown_token_noop (l : List Char) (c : ℝ) (m : Bool)
    (h : (parse_op l).op = Op.ERR) :
    parse_op l = ⟨Op.ERR, 0, 1⟩ ∧ arity Op.ERR = 0 ∧
    process_line c m l = (Val.fin c, m, 1) := by
  have he : parse_op l = ⟨Op.ERR, 0, 1⟩ := parse_op_err l h
  refine ⟨he, rfl, ?_⟩
  simp [process_line, he, arity, nullary]

/-- Witness for `unknown_token_noop` at the line `XYZ` with accumulator 0 in
degree mode. -/
theorem unknown_token_noop_witness :
    parse_op ['X', 'Y', 'Z'] = ⟨Op.ERR, 0, 1⟩ ∧ arity Op.ERR = 0 ∧
    process_line 0 false ['X', 'Y', 'Z'] = (Val.fin 0, false, 1) :=
  unknown_token_noop ['X', 'Y', 'Z'] 0 false (by decide)

/-- Claim C7: on a line starting with an ASCII digit the recognizer rewinds
the cursor to 0 (leaving the digit for the argument parser) and resolves the
operation to `SET` with no diagnostic; `process_line` then overwrites the
accumulator with exactly the value produced by the literal parser on that
line, leaving the angle mode unchanged. -/
theorem leading_digit_set (l : List Char) (c : ℝ) (m : Bool)
    (h : (lineGet l 0).isDigit = true) :
    parse_op l = ⟨Op.SET, 0, 0⟩ ∧
    process_line c m l
      = (Val.fin ((parse_arg l 0).val : ℝ), m, (parse_arg l 0).diag) := by
  have hop : parse_op l = ⟨Op.SET, 0, 0⟩ := by
    unfold parse_op
    rcases digit_char_cases _ h with hx | hx | hx | hx | hx | hx | hx | hx | hx | hx <;>
      (rw [hx]; rfl)
  have hsw : skip_ws l 0 = 0 := by
    rw [skip_ws]
    split_ifs with h1 h2
    · rw [is_space_of_digit _ h] at h2
      exact Bool.noConfusion h2
    · rfl
    · rfl
  refine ⟨hop, ?_⟩
  simp only [process_line, hop, hsw]
  simp [arity, binary]

/-- Witness for `leading_digit_set` at the line `42` with accumulator 7. -/
theorem leading_digit_set_witness :
    parse_op ['4', '2'] = ⟨Op.SET, 0, 0⟩ ∧
    process_line 7 false ['4', '2']
      = (Val.fin ((parse_arg ['4', '2'] 0).val : ℝ), false, (parse_arg ['4', '2'] 0).diag) :=
  leading_digit_set ['4', '2'] 7 false (by decide)

/-- The angle-mode output of `process_line` depends only on the recognized
operation: `RAD` sets it, `DEG` clears it, everything else leaves it alone. -/
theorem mode_of_process_line (c : ℝ) (m : Bool) (l : List Char) :
    (process_line c m l).2.1
      = (if (parse_op l).op = Op.RAD then true
         else if (parse_op l).op = Op.DEG then false else m) := by
  rcases hop : parse_op l with ⟨op, k, d⟩
  simp only [process_line, hop]
  cases op <;> simp [arity, nullary]

theorem foldl_mode_step_const (ls : List (List Char)) :
    ∀ m0 : Bool, (∀ l ∈ ls, (parse_op l).op ≠ Op.RAD ∧ (parse_op l).op ≠ Op.DEG) →
      List.foldl mode_step m0 ls = m0 := by
  induction ls with
  | nil => intro m0 _; rfl
  | cons x xs ih =>
    intro m0 h
    have hx := h x (List.mem_cons_self x xs)
    have hstep : mode_step m0 x = m0 := by
      unfold mode_step
      rw [mode_of_process_line, if_neg hx.1, if_neg hx.2]
    rw [List.foldl_cons, hstep]
    exact ih m0 (fun l hl => h l (List.mem_cons_of_mem x hl))

/-- Claim C8: `RAD` sets the angle mode and `DEG` clears it, both leaving the
accumulator unchanged and emitting no diagnostic; no other operation changes
the mode, so the mode set by the last `RAD`/`DEG` persists across any
sequence of lines none of which parses to `RAD` or `DEG`, and repeating the
same toggle is idempotent. -/
theorem angle_mode_toggles (c : ℝ) (m : Bool) (ls : List (List Char))
    (hls : ∀ l ∈ ls, (parse_op l).op ≠ Op.RAD ∧ (parse_op l).op ≠ Op.DEG) :
    process_line c m ['R', 'A', 'D'] = (Val.fin c, true, 0) ∧
    process_line c m ['D', 'E', 'G'] = (Val.fin c, false, 0) ∧
    (∀ l, (parse_op l).op ≠ Op.RAD → (parse_op l).op ≠ Op.DEG →
      (process_line c m l).2.1 = m) ∧
    List.foldl mode_step (mode_step m ['R', 'A', 'D']) ls = true ∧
    List.foldl mode_step (mode_step m ['D', 'E', 'G']) ls = false ∧
    mode_step (mode_step m ['R', 'A', 'D']) ['R', 'A', 'D'] = mode_step m ['R', 'A', 'D'] ∧
    mode_step (mode_step m ['D', 'E', 'G']) ['D', 'E', 'G'] = mode_step m ['D', 'E', 'G'] := by
  have hmode : ∀ l, (parse_op l).op ≠ Op.RAD → (parse_op l).op ≠ Op.DEG →
      (process_line c m l).2.1 = m := by
    intro l h1 h2
    rw [mode_of_process_line, if_neg h1, if_neg h2]
  refine ⟨rfl, rfl, hmode, ?_, ?_, rfl, rfl⟩
  · exact foldl_mode_step_const ls _ hls
  · exact foldl_mode_step_const ls _ hls

/-- Witness for `angle_mode_toggles`: after `RAD` (resp. `DEG`) the mode
stays `true` (resp. `false`) across the unrelated line `+2`. -/
theorem angle_mode_toggles_witness :
    List.foldl mode_step (mode_step false ['R', 'A', 'D']) [['+', '2']] = true ∧
    List.foldl mode_step (mode_step false ['D', 'E', 'G']) [['+', '2']] = false :=
  ⟨(angle_mode_toggles 0 false [['+', '2']] (by decide)).2.2.2.1,
   (angle_mode_toggles 0 false [['+', '2']] (by decide)).2.2.2.2.1⟩

/-- Claim C10: when the prefix of a line is successfully recognized as a
nullary or unary operation, the recognizer emits no diagnostic and
`process_line` returns exactly the same result (value, mode and diagnostic
count) as for the line truncated to the recognized token alone — trailing
characters are silently ignored, and the unconsumed-suffix diagnostic can
only arise on the arity-2 path. -/
theorem trailing_chars_ignored (l : List Char) (c : ℝ) (m : Bool)
    (hne : (parse_op l).op ≠ Op.ERR) (har : arity (parse_op l).op ≤ 1) :
    (parse_op l).diag = 0 ∧
    process_line c m l = process_line c m (List.take (parse_op l).cursor l) := by
  rcases parse_op_cases l with he | ⟨op, k, hne2, heq⟩
  · rw [he] at hne
    exact absurd rfl hne
  · have har' : arity op ≤ 1 := by rw [heq] at har; exact har
    have hSET : op ≠ Op.SET := by
      intro hh
      subst hh
      simp [arity] at har'
    have htake := parse_op_take l op k heq hSET
    rw [heq]
    refine ⟨rfl, ?_⟩
    simp only [process_line, heq, htake]
    cases op <;> first | rfl | (simp [arity] at har')

/-- Witness for `trailing_chars_ignored` at the line `SINxyz`: it behaves
exactly like `SIN`. -/
theorem trailing_chars_ignored_witness :
    (parse_op ['S', 'I', 'N', 'x', 'y', 'z']).diag = 0 ∧
    process_line 0 true ['S', 'I', 'N', 'x', 'y', 'z']
      = process_line 0 true
          (List.take (parse_op ['S', 'I', 'N', 'x', 'y', 'z']).cursor
            ['S', 'I', 'N', 'x', 'y', 'z']) :=
  trailing_chars_ignored ['S', 'I', 'N', 'x', 'y', 'z'] 0 true (by decide) (by decide)

end CalcSpec
